import Mathlib

/-!
# Verification of the coding-video-generator server core

Shallow embedding of the event-streaming and job-orchestration engine of
`server_python`: the SSE broadcast bus (`services/sse_manager.py`), the
progress tracker (`services/progress.py`), the deadline guard
(`utils/timeout.py`) and the job pipeline / delete endpoint
(`routers/generate.py`).

Modelling conventions, stated once:
* Sequence ids are string-encoded decimal numbers in the source
  (`id=str(buffer.event_counter)`); every use converts them back with
  `int(...)`, so they are modelled by their numeric value (`Nat`).
* `datetime.now(...)` readings are modelled by an explicit `now : Nat`
  argument supplied by the caller; timestamps never influence control flow.
* `asyncio.Queue(maxsize=100)` is modelled as a bounded FIFO list;
  `put_nowait` on a full queue raises `QueueFull`, which the broadcaster
  swallows (drop-on-full).
* `asyncio.Task` handles are modelled by numeric task ids: `_cleanup_tasks`
  is the dict from job id to the currently registered task id, and
  `live_tasks` is the set of scheduled-and-not-cancelled tasks.
* The JSON serialisation of the history payload (`json.dumps(...)`) is
  injective, so the payload is carried as the structured list itself.
-/

/-- `MAX_BUFFER_LINES` from `config.py`. -/
def MAX_BUFFER_LINES : Nat := 500

/-- `CLEANUP_GRACE_PERIOD_SECONDS` from `config.py` (5 minutes). -/
def CLEANUP_GRACE_PERIOD_SECONDS : Nat := 300

/-- `MAX_LOGS` from `config.py`. -/
def MAX_LOGS : Nat := 50

/-- Subscriber queue capacity: `asyncio.Queue(maxsize=100)` in `SSEManager.subscribe`. -/
def SUBSCRIBER_QUEUE_MAXSIZE : Nat := 100

/-- `StreamEventType` from `services/sse_manager.py`. -/
inductive StreamEventType
  | stdout
  | stderr
  | status
  | connected
  | history
  deriving DecidableEq, Repr

/-- `StreamLine` from `services/sse_manager.py` (ids numeric, see header). -/
structure StreamLine where
  id : Nat
  type : StreamEventType
  data : String
  timestamp : Nat
  deriving DecidableEq, Repr

/-- `JobBuffer` from `services/sse_manager.py`.  The subscriber set is a list
of FIFO queues (one per registered subscriber). -/
structure JobBuffer where
  lines : List StreamLine := []
  event_counter : Nat := 0
  is_complete : Bool := false
  subscribers : List (List StreamLine) := []
  deriving DecidableEq, Repr

/-- Association-list read, modelling Python `dict.get`. -/
def alGet {β : Type} (l : List (String × β)) (k : String) : Option β :=
  match l with
  | [] => none
  | (k', v) :: t => if k' = k then some v else alGet t k

/-- Association-list write, modelling Python `dict[k] = v`. -/
def alSet {β : Type} (l : List (String × β)) (k : String) (v : β) :
    List (String × β) :=
  match l with
  | [] => [(k, v)]
  | (k', v') :: t => if k' = k then (k, v) :: t else (k', v') :: alSet t k v

/-- Association-list delete, modelling Python `del d[k]` / key absence. -/
def alErase {β : Type} (l : List (String × β)) (k : String) :
    List (String × β) :=
  l.filter (fun p => p.1 ≠ k)

/-- The mutable state of the `SSEManager` singleton: `_jobs`, `_cleanup_tasks`,
plus the modelled pool of scheduled-and-not-cancelled teardown tasks. -/
structure SSEState where
  jobs : List (String × JobBuffer) := []
  cleanup_tasks : List (String × Nat) := []
  live_tasks : List Nat := []
  next_task : Nat := 0
  deriving DecidableEq, Repr

/-- A freshly constructed `SSEManager()`. -/
def emptySSE : SSEState := {}

/-- The buffer `_get_or_create_buffer` would return (read-only view). -/
def getBuf (s : SSEState) (jid : String) : JobBuffer :=
  (alGet s.jobs jid).getD {}

/-- `buffer.lines = buffer.lines[-MAX_BUFFER_LINES:]` under the
`len > MAX_BUFFER_LINES` guard in `SSEManager.broadcast`. -/
def trimBuf (l : List StreamLine) : List StreamLine :=
  if l.length > MAX_BUFFER_LINES then l.drop (l.length - MAX_BUFFER_LINES) else l

/-- `queue.put_nowait(line)` under `try/except asyncio.QueueFull: pass`. -/
def putNowait (q : List StreamLine) (line : StreamLine) : List StreamLine :=
  if q.length < SUBSCRIBER_QUEUE_MAXSIZE then q ++ [line] else q

/-- `SSEManager.broadcast`: assign the next sequence id, append to the retained
buffer, trim, and deliver to every subscriber queue (drop-on-full). -/
def SSEManager.broadcast (s : SSEState) (jid : String)
    (event_type : StreamEventType) (data : String) (now : Nat) : SSEState :=
  let b := getBuf s jid
  let ctr := b.event_counter + 1
  let line : StreamLine := { id := ctr, type := event_type, data := data, timestamp := now }
  let b' : JobBuffer :=
    { lines := trimBuf (b.lines ++ [line])
      event_counter := ctr
      is_complete := b.is_complete
      subscribers := b.subscribers.map (fun q => putNowait q line) }
  { s with jobs := alSet s.jobs jid b' }

/-- The cleanup-cancellation block at the top of `SSEManager.subscribe` and
`SSEManager.cleanup`: `task.cancel()` plus `del self._cleanup_tasks[job_id]`. -/
def cancelPendingCleanup (s : SSEState) (jid : String) : SSEState :=
  match alGet s.cleanup_tasks jid with
  | none => s
  | some tid =>
      { s with cleanup_tasks := alErase s.cleanup_tasks jid
               live_tasks := s.live_tasks.filter (fun t => t ≠ tid) }

/-- `SSEManager.complete_job`: no-op when the buffer is absent; otherwise set
`is_complete`, broadcast a `"completed"` status event, and register a fresh
teardown task, overwriting (without cancelling) any previously tracked one. -/
def SSEManager.complete_job (s : SSEState) (jid : String) (now : Nat) : SSEState :=
  match alGet s.jobs jid with
  | none => s
  | some b =>
      let s1 := { s with jobs := alSet s.jobs jid { b with is_complete := true } }
      let s2 := SSEManager.broadcast s1 jid .status "completed" now
      { s2 with cleanup_tasks := alSet s2.cleanup_tasks jid s2.next_task
                live_tasks := s2.live_tasks ++ [s2.next_task]
                next_task := s2.next_task + 1 }

/-- `SSEManager.cleanup`: cancel any pending teardown and drop the buffer. -/
def SSEManager.cleanup (s : SSEState) (jid : String) : SSEState :=
  let s1 := cancelPendingCleanup s jid
  { s1 with jobs := alErase s1.jobs jid }

/-- An event as yielded by the `subscribe` generator.  A `history` event
carries its structured payload (JSON serialisation is injective). -/
inductive Emitted
  | line (l : StreamLine)
  | historyEvent (id : Nat) (payload : List StreamLine) (timestamp : Nat)
  deriving DecidableEq, Repr

/-- The sequence id carried by a yielded event. -/
def Emitted.eid : Emitted → Nat
  | .line l => l.id
  | .historyEvent i _ _ => i

/-- The atomic prologue of `SSEManager.subscribe` up to and including the
first `yield` (lines 84-104: get-or-create, cancel pending cleanup, register
a fresh empty queue, consume a sequence id for the synthetic connected
event).  No `await` occurs in this span. -/
def subConnect (s : SSEState) (jid : String) (now : Nat) : SSEState × Emitted :=
  let s0 : SSEState :=
    if (alGet s.jobs jid).isSome then s
    else { s with jobs := alSet s.jobs jid {} }
  let s1 := cancelPendingCleanup s0 jid
  let b := getBuf s1 jid
  let ctr := b.event_counter + 1
  let connLine : StreamLine :=
    { id := ctr, type := .connected, data := "Connected to job " ++ jid, timestamp := now }
  let b' : JobBuffer := { b with event_counter := ctr, subscribers := b.subscribers ++ [[]] }
  ({ s1 with jobs := alSet s1.jobs jid b' }, .line connLine)

/-- The atomic history block of `SSEManager.subscribe` (lines 107-127): if the
buffer holds lines and some line has id greater than `int(last_event_id)`
(`0` when absent), consume a sequence id and yield one history event whose
payload is the ordered list of those lines. -/
def subHistory (s : SSEState) (jid : String) (last_event_id : Option Nat)
    (now : Nat) : SSEState × Option Emitted :=
  let b := getBuf s jid
  if b.lines = [] then (s, none)
  else
    let history_start_id := last_event_id.getD 0
    let missed_lines := b.lines.filter (fun l => history_start_id < l.id)
    if missed_lines = [] then (s, none)
    else
      let ctr := b.event_counter + 1
      let b' : JobBuffer := { b with event_counter := ctr }
      ({ s with jobs := alSet s.jobs jid b' },
       some (.historyEvent ctr missed_lines now))

/-- The `finally` block of `SSEManager.subscribe`:
`buffer.subscribers.discard(queue)` for the subscriber's own queue,
identified by its position. -/
def subFinalize (s : SSEState) (jid : String) (i : Nat) : SSEState :=
  match alGet s.jobs jid with
  | none => s
  | some b =>
      let b' : JobBuffer := { b with subscribers := b.subscribers.eraseIdx i }
      { s with jobs := alSet s.jobs jid b' }

/-! ## Trace semantics of a single subscription

The `subscribe` generator suspends at every `yield` and at `queue.get()`;
between suspension points other tasks may call `broadcast`.  A schedule is a
list of atomic actions: the subscriber's prologue pieces, a dequeue of its
queue head, and broadcasts performed by the pipeline task. -/

/-- One atomic interleaving step of a single subscription to `jid`. -/
inductive SubAction
  | connect
  | history
  | deq
  | bcast (t : StreamEventType) (d : String)
  deriving DecidableEq, Repr

/-- Trace state: the manager state, the subscriber's control point
(0 = not started, 1 = connected yielded, 2 = streaming loop), and the events
yielded to the subscriber so far. -/
structure TraceState where
  mgr : SSEState
  phase : Nat
  observed : List Emitted
  deriving DecidableEq, Repr

/-- Sequence ids of the events the subscriber has observed, in order. -/
def obsIds (ts : TraceState) : List Nat := ts.observed.map Emitted.eid

/-- One step of the interleaved execution (timestamps are irrelevant to the
observed ids and fixed to 0). -/
def traceStep (jid : String) (lastSeen : Option Nat) (ts : TraceState)
    (a : SubAction) : TraceState :=
  match a with
  | .connect =>
      if ts.phase = 0 then
        let r := subConnect ts.mgr jid 0
        { mgr := r.1, phase := 1, observed := ts.observed ++ [r.2] }
      else ts
  | .history =>
      if ts.phase = 1 then
        let r := subHistory ts.mgr jid lastSeen 0
        { mgr := r.1, phase := 2, observed := ts.observed ++ r.2.toList }
      else ts
  | .deq =>
      if ts.phase = 2 then
        let b := getBuf ts.mgr jid
        match b.subscribers with
        | q :: rest =>
            match q with
            | [] => ts
            | l :: qrest =>
                let b' : JobBuffer := { b with subscribers := qrest :: rest }
                { mgr := { ts.mgr with jobs := alSet ts.mgr.jobs jid b' }
                  phase := 2
                  observed := ts.observed ++ [.line l] }
        | [] => ts
      else ts
  | .bcast t d => { ts with mgr := SSEManager.broadcast ts.mgr jid t d 0 }

/-- Run a schedule of atomic actions from an initial manager state. -/
def runTrace (jid : String) (lastSeen : Option Nat) (s0 : SSEState)
    (acts : List SubAction) : TraceState :=
  acts.foldl (traceStep jid lastSeen) { mgr := s0, phase := 0, observed := [] }

/-! ## Job data model (`models/schemas.py`) and progress tracker
(`services/progress.py`) -/

/-- `JobStatus` from `models/schemas.py`. -/
inductive JobStatus
  | pending
  | generating_content
  | generating_audio
  | rendering
  | completed
  | error
  deriving DecidableEq, Repr

/-- The string value of a `JobStatus` (`use_enum_values`). -/
def JobStatus.value : JobStatus → String
  | .pending => "pending"
  | .generating_content => "generating_content"
  | .generating_audio => "generating_audio"
  | .rendering => "rendering"
  | .completed => "completed"
  | .error => "error"

/-- `StyleLevel` from `models/schemas.py`. -/
inductive StyleLevel
  | beginner
  | intermediate
  | advanced
  deriving DecidableEq, Repr

/-- `TutorialStep` from `models/schemas.py`. -/
structure TutorialStep where
  code : String
  explanation : String
  language : String
  deriving DecidableEq, Repr

/-- `TutorialContent` from `models/schemas.py`. -/
structure TutorialContent where
  title : String
  steps : List TutorialStep
  deriving DecidableEq, Repr

/-- `LogEntry` from `models/schemas.py`. -/
structure LogEntry where
  timestamp : Nat
  message : String
  deriving DecidableEq, Repr

/-- `ProgressDetails` from `models/schemas.py` (`subProgress` is a Python
float, modelled as `ℚ`). -/
structure ProgressDetails where
  currentAction : String
  subProgress : ℚ := 0
  currentStep : Option Nat := none
  totalSteps : Option Nat := none
  phaseStartedAt : Nat
  logs : List LogEntry := []
  deriving DecidableEq, Repr

/-- `GenerationJob` from `models/schemas.py`. -/
structure GenerationJob where
  id : String
  status : JobStatus := .pending
  prompt : String
  language : Option String := some "javascript"
  style : Option StyleLevel := some .beginner
  voiceSpeed : Option ℚ := some 1
  content : Option TutorialContent := none
  audioFiles : Option (List String) := none
  videoPath : Option String := none
  error : Option String := none
  createdAt : Nat
  startedAt : Option Nat := none
  completedAt : Option Nat := none
  progress : Option ProgressDetails := none
  deriving DecidableEq, Repr

/-- `ProgressTracker._get_default_action`. -/
def defaultAction : JobStatus → String
  | .pending => "Waiting to start..."
  | .generating_content => "AI is generating tutorial content..."
  | .generating_audio => "Converting text to speech..."
  | .rendering => "Rendering video..."
  | .completed => "Done!"
  | .error => "An error occurred"

/-- `ProgressTracker.log`: lazily create a snapshot, append a timestamped
entry, and keep only the last `MAX_LOGS` entries (the console side channel is
outside the model). -/
def ProgressTracker.log (job : GenerationJob) (message : String) (now : Nat) :
    GenerationJob :=
  let job :=
    match job.progress with
    | none =>
        let p0 : ProgressDetails :=
          { currentAction := "", subProgress := 0, phaseStartedAt := now, logs := [] }
        { job with progress := some p0 }
    | some _ => job
  match job.progress with
  | none => job
  | some p =>
      let logs := p.logs ++ [{ timestamp := now, message := message }]
      let logs := if logs.length > MAX_LOGS then logs.drop (logs.length - MAX_LOGS) else logs
      { job with progress := some { p with logs := logs } }

/-- `ProgressTracker.start_phase`: set the status, replace the snapshot
(carrying the log history over), and log the phase start.  Python's
`1 if total_steps else None` treats `0` as falsy. -/
def ProgressTracker.start_phase (job : GenerationJob) (status : JobStatus)
    (total_steps : Option Nat) (now : Nat) : GenerationJob :=
  let job := { job with status := status }
  let prog : ProgressDetails :=
    { currentAction := defaultAction status
      subProgress := 0
      currentStep := match total_steps with
        | some n => if n ≠ 0 then some 1 else none
        | none => none
      totalSteps := total_steps
      phaseStartedAt := now
      logs := match job.progress with
        | some p => p.logs
        | none => [] }
  ProgressTracker.log { job with progress := some prog }
    ("Starting phase: " ++ status.value) now

/-- `ProgressTracker.update_progress`: lazily create a snapshot, clamp
`percent` to [0,100], update the action and optional step, and log.
(Python `round` is banker's rounding; the difference to `round : ℚ → ℤ` at
half-integers only affects log text, which no property inspects.) -/
def ProgressTracker.update_progress (job : GenerationJob) (percent : ℚ)
    (action : String) (step : Option Nat) (file : Option String) (now : Nat) :
    GenerationJob :=
  let job :=
    match job.progress with
    | none =>
        let p0 : ProgressDetails :=
          { currentAction := action, subProgress := percent, phaseStartedAt := now, logs := [] }
        { job with progress := some p0 }
    | some _ => job
  match job.progress with
  | none => job
  | some p =>
      let p := { p with
        subProgress := max 0 (min 100 percent)
        currentAction := action
        currentStep := match step with
          | some n => some n
          | none => p.currentStep }
      let job := { job with progress := some p }
      let r := round percent
      let m := match file with
        | some f => action ++ " (" ++ f ++ ")"
        | none => action
      ProgressTracker.log job ("[" ++ toString r ++ "%] " ++ m) now

/-- `ProgressTracker.complete_phase`: only if a snapshot exists, set
`subProgress = 100` and log the phase completion. -/
def ProgressTracker.complete_phase (job : GenerationJob) (now : Nat) :
    GenerationJob :=
  match job.progress with
  | none => job
  | some p =>
      let job := { job with progress := some { p with subProgress := 100 } }
      ProgressTracker.log job ("Phase completed: " ++ job.status.value) now

/-- `ProgressTracker.set_error`: transition to `Error`, record the message,
stamp `completedAt`, and log. -/
def ProgressTracker.set_error (job : GenerationJob) (message : String)
    (now : Nat) : GenerationJob :=
  let job := { job with
    status := JobStatus.error
    error := some message
    completedAt := some now }
  ProgressTracker.log job ("Error: " ++ message) now

/-! ## Server state, the pipeline (`routers/generate.py`), and media cleanup
(`services/tts.py`, `services/remotion.py`) -/

/-- Whether a file name matches the glob `f"{job_id}_*"` of `cleanup_audio`. -/
def matchesAudioGlob (jid f : String) : Bool :=
  (jid ++ "_").toList.isPrefixOf f.toList

/-- `cleanup_audio`: unlink every file in `AUDIO_DIR` matching `{job_id}_*`. -/
def cleanupAudioFiles (audioDir : List String) (jid : String) : List String :=
  audioDir.filter (fun f => ¬ matchesAudioGlob jid f)

/-- `delete_video`: unlink `OUTPUT_DIR / f"{job_id}.mp4"` (missing file
tolerated). -/
def deleteVideoFile (videos : List String) (jid : String) : List String :=
  videos.filter (fun f => f ≠ jid ++ ".mp4")

/-- The process state the router endpoints touch: the in-memory `jobs` dict,
the `sse_manager` singleton, and the media directories. -/
structure ServerState where
  jobs : List (String × GenerationJob) := []
  sse : SSEState := {}
  videos : List String := []
  audioDir : List String := []
  deriving DecidableEq, Repr

/-- The `except` branch of `process_job`: record the error on the job,
broadcast an `"error"` status event and tell the bus the job is complete. -/
def processJobError (st : ServerState) (job_id : String) (job : GenerationJob)
    (e : String) (now : Nat) : ServerState :=
  let job := ProgressTracker.set_error job e now
  let sse := SSEManager.broadcast st.sse job_id .status "error" now
  let sse := SSEManager.complete_job sse job_id now
  { st with jobs := alSet st.jobs job_id job, sse := sse }

/-- `process_job` from `routers/generate.py`.  The three external
collaborators (content generation, speech synthesis, video render) are
opaque long-running operations specified at their interface boundary; each
is modelled by its outcome (`Except`), an error standing for any raised
exception (collaborator failure, deadline exceeded, or malformed result).
The job record is mutated in place in the source; the model carries the
record locally and writes it back at each return point, which yields the
same final state because the record is not read through the table in
between. -/
def process_job (st : ServerState) (job_id : String)
    (contentRes : Except String TutorialContent)
    (audioRes : Except String (List String))
    (renderRes : Except String String) (now : Nat) : ServerState :=
  match alGet st.jobs job_id with
  | none => st
  | some job =>
      let job := { job with startedAt := some now }
      -- Step 1: generate content
      let job := ProgressTracker.start_phase job .generating_content none now
      let st := { st with
        sse := SSEManager.broadcast st.sse job_id .status "generating_content" now }
      match contentRes with
      | .error e => processJobError st job_id job e now
      | .ok content =>
          let job := { job with content := some content }
          let job := ProgressTracker.complete_phase job now
          -- Step 2: generate audio
          let job := ProgressTracker.start_phase job .generating_audio
            (some content.steps.length) now
          let st := { st with
            sse := SSEManager.broadcast st.sse job_id .status "generating_audio" now }
          match audioRes with
          | .error e => processJobError st job_id job e now
          | .ok audio_files =>
              let job := { job with audioFiles := some audio_files }
              let job := ProgressTracker.complete_phase job now
              -- Step 3: render video
              let job := ProgressTracker.start_phase job .rendering none now
              let st := { st with
                sse := SSEManager.broadcast st.sse job_id .status "rendering" now }
              match renderRes with
              | .error e => processJobError st job_id job e now
              | .ok video_path =>
                  let job := { job with
                    videoPath := some video_path
                    status := JobStatus.completed
                    completedAt := some now }
                  let job := ProgressTracker.complete_phase job now
                  { st with
                    jobs := alSet st.jobs job_id job
                    audioDir := cleanupAudioFiles st.audioDir job_id
                    sse := SSEManager.complete_job st.sse job_id now }

/-- `delete_job` from `routers/generate.py`: 404 (`none`) on an unknown id;
otherwise delete the video file, clean up the audio files, and remove the
record from memory.  (The source performs no `sse_manager` call here.) -/
def delete_job (st : ServerState) (job_id : String) : Option ServerState :=
  match alGet st.jobs job_id with
  | none => none
  | some _ =>
      some { st with
        videos := deleteVideoFile st.videos job_id
        audioDir := cleanupAudioFiles st.audioDir job_id
        jobs := alErase st.jobs job_id }

/-! ## Deadline guard (`utils/timeout.py`) -/

/-- The exceptions relevant to `with_timeout`: `asyncio.TimeoutError` (which
`asyncio.wait_for` raises on deadline expiry, and which the wrapped
operation itself may also raise), the custom `TimeoutError(operation,
timeout_seconds)` defined in `utils/timeout.py` (the DeadlineExceeded-style
error), and any other exception. -/
inductive PyError
  | asyncioTimeoutError
  | timeoutError (operation : String) (timeout_seconds : Nat)
  | otherError (msg : String)
  deriving DecidableEq, Repr

/-- An awaited operation: how long it runs and how it finishes.
`asyncio.wait_for` returns its outcome when it finishes within the deadline
and raises `asyncio.TimeoutError` otherwise. -/
structure AsyncOp (α : Type) where
  duration : Nat
  outcome : Except PyError α
  deriving Repr

/-- `with_timeout` from `utils/timeout.py`: `await asyncio.wait_for(coro,
timeout)` under `except asyncio.TimeoutError: raise TimeoutError(operation,
timeout_seconds)`.  Note the `except` clause catches an
`asyncio.TimeoutError` regardless of whether it came from the deadline or
from the operation itself. -/
def with_timeout {α : Type} (coro : AsyncOp α) (timeout_seconds : Nat)
    (operation : String) : Except PyError α :=
  let waited : Except PyError α :=
    if coro.duration ≤ timeout_seconds then coro.outcome
    else .error .asyncioTimeoutError
  match waited with
  | .error .asyncioTimeoutError => .error (.timeoutError operation timeout_seconds)
  | r => r

/-! ## Association-list and buffer helper lemmas -/

theorem alGet_alSet_self {β : Type} (l : List (String × β)) (k : String) (v : β) :
    alGet (alSet l k v) k = some v := by
  induction l with
  | nil => simp [alGet, alSet]
  | cons p t ih =>
      obtain ⟨k', v'⟩ := p
      by_cases h : k' = k
      · simp [alSet, h, alGet]
      · simp [alSet, h, alGet, ih]

theorem alGet_alErase_self {β : Type} (l : List (String × β)) (k : String) :
    alGet (alErase l k) k = none := by
  induction l with
  | nil => simp [alGet, alErase]
  | cons p t ih =>
      obtain ⟨k', v'⟩ := p
      by_cases h : k' = k
      · simpa [alErase, h, alGet] using ih
      · simpa [alErase, h, alGet] using ih

theorem getBuf_alSet_self (s : SSEState) (jid : String) (b : JobBuffer)
    (jobs' : List (String × JobBuffer)) (h : jobs' = alSet s.jobs jid b) :
    getBuf { s with jobs := jobs' } jid = b := by
  subst h
  simp [getBuf, alGet_alSet_self]

theorem trimBuf_suffix (l : List StreamLine) : trimBuf l <:+ l := by
  unfold trimBuf
  split
  · exact List.drop_suffix _ _
  · exact List.suffix_refl _

theorem suffix_trimBuf {s l : List StreamLine} (h : s <:+ l)
    (hlen : s.length ≤ MAX_BUFFER_LINES) : s <:+ trimBuf l := by
  unfold trimBuf
  split
  · next hgt =>
      have hsl : s.length ≤ l.length := h.length_le
      rw [List.suffix_iff_eq_drop] at h
      have heq : l.length - s.length
          = (l.length - MAX_BUFFER_LINES) + (MAX_BUFFER_LINES - s.length) := by
        omega
      rw [h, heq, ← List.drop_drop]
      exact List.drop_suffix _ _
  · exact h

theorem suffix_snoc_trimBuf {s l : List StreamLine} (x : StreamLine)
    (h : s <:+ l) (hlen : s.length + 1 ≤ MAX_BUFFER_LINES) :
    s ++ [x] <:+ trimBuf (l ++ [x]) := by
  apply suffix_trimBuf
  · obtain ⟨u, rfl⟩ := h
    rw [List.append_assoc]
    exact List.suffix_append _ _
  · simpa using hlen

/-! ## C10 — `complete_job` on an id with no buffer -/

/-- C10: calling `complete_job` for a job id that has no existing buffer is a
silent no-op: no buffer is created, no completion status event is broadcast,
and no teardown is scheduled (the state is unchanged). -/
theorem complete_job_missing_buffer_noop (s : SSEState) (jid : String) (now : Nat)
    (h : alGet s.jobs jid = none) : SSEManager.complete_job s jid now = s := by
  unfold SSEManager.complete_job
  rw [h]

/-- Witness for C10 at a concrete input. -/
theorem complete_job_missing_buffer_noop_witness :
    alGet emptySSE.jobs "job-1" = none ∧
      SSEManager.complete_job emptySSE "job-1" 0 = emptySSE :=
  ⟨by decide, complete_job_missing_buffer_noop emptySSE "job-1" 0 (by decide)⟩

/-! ## C4 — the deadline guard -/

/-- C4 (counterexample): an operation that completes within the deadline but
raises `asyncio.TimeoutError` itself does NOT have its own error propagated:
the caller receives the DeadlineExceeded-style `TimeoutError` in its place,
contrary to the claim. -/
theorem with_timeout_converts_op_timeout :
    with_timeout (⟨0, Except.error PyError.asyncioTimeoutError⟩ : AsyncOp Nat)
        5 "render" = Except.error (PyError.timeoutError "render" 5) ∧
      with_timeout (⟨0, Except.error PyError.asyncioTimeoutError⟩ : AsyncOp Nat)
        5 "render" ≠ Except.error PyError.asyncioTimeoutError := by
  constructor
  · rfl
  · intro h
    exact PyError.noConfusion (Except.error.inj h)

/-- C4 (amended): if the operation does not complete within the deadline the
call fails with the `TimeoutError(label, duration)`; if it completes, its
result or failure is propagated unchanged — except that an
`asyncio.TimeoutError` raised by the operation itself is indistinguishable
from deadline expiry and is likewise replaced by `TimeoutError(label,
duration)`. -/
theorem with_timeout_amended {α : Type} (coro : AsyncOp α)
    (timeout_seconds : Nat) (operation : String) :
    (timeout_seconds < coro.duration →
        with_timeout coro timeout_seconds operation
          = Except.error (PyError.timeoutError operation timeout_seconds)) ∧
      (coro.duration ≤ timeout_seconds →
        (coro.outcome ≠ Except.error PyError.asyncioTimeoutError ∧
            with_timeout coro timeout_seconds operation = coro.outcome) ∨
          (coro.outcome = Except.error PyError.asyncioTimeoutError ∧
            with_timeout coro timeout_seconds operation
              = Except.error (PyError.timeoutError operation timeout_seconds))) := by
  constructor
  · intro h
    have hn : ¬ coro.duration ≤ timeout_seconds := by omega
    unfold with_timeout
    simp [hn]
  · intro h
    unfold with_timeout
    rcases ho : coro.outcome with e | v
    · rcases e with _ | ⟨o, t⟩ | m
      · right
        simp [h, ho]
      · left
        simp [h, ho]
      · left
        simp [h, ho]
    · left
      simp [h, ho]

/-- Witness for C4's amended theorem at a concrete input: an ordinary
collaborator failure within the deadline is propagated unchanged. -/
theorem with_timeout_amended_witness :
    with_timeout (⟨2, Except.error (PyError.otherError "boom")⟩ : AsyncOp Nat)
      5 "tts" = Except.error (PyError.otherError "boom") := by
  rcases (with_timeout_amended
      (⟨2, Except.error (PyError.otherError "boom")⟩ : AsyncOp Nat) 5 "tts").2
      (by decide) with ⟨_, h⟩ | ⟨h, _⟩
  · exact h
  · exact absurd (Except.error.inj h) (fun h' => PyError.noConfusion h')

/-! ## C8 — `update_progress` clamping -/

/-- C8: every `update_progress(percent, action, ...)` stores
`subProgress = percent` clamped to [0,100], and a progress snapshot exists
afterwards even when none existed before (lazily created, stamped with the
current time). -/
theorem update_progress_clamps (job : GenerationJob) (percent : ℚ)
    (action : String) (step : Option Nat) (file : Option String) (now : Nat) :
    (∃ p, (ProgressTracker.update_progress job percent action step file now).progress
          = some p ∧ p.subProgress = max 0 (min 100 percent)) ∧
      (job.progress = none →
        ∃ p, (ProgressTracker.update_progress job percent action step file now).progress
            = some p ∧ p.phaseStartedAt = now ∧
            p.subProgress = max 0 (min 100 percent)) := by
  cases hjp : job.progress with
  | none =>
      constructor
      · simp only [ProgressTracker.update_progress, ProgressTracker.log, hjp]
        exact ⟨_, rfl, rfl⟩
      · intro _
        simp only [ProgressTracker.update_progress, ProgressTracker.log, hjp]
        exact ⟨_, rfl, rfl, rfl⟩
  | some p =>
      constructor
      · simp only [ProgressTracker.update_progress, ProgressTracker.log, hjp]
        exact ⟨_, rfl, rfl⟩
      · intro hcontra
        simp [hjp] at hcontra

/-! ## C7 — ring buffer overflow scenario -/

/-- The event the k-th broadcast (1-indexed id) of the C7 scenario produces. -/
def lineF (i : Nat) : StreamLine :=
  { id := i, type := .stdout, data := "line", timestamp := i - 1 }

/-- Drive `n` consecutive broadcasts for one job (the §8 scenario). -/
def broadcastN (s : SSEState) (jid : String) : Nat → SSEState
  | 0 => s
  | Nat.succ k => SSEManager.broadcast (broadcastN s jid k) jid .stdout "line" k

/-- Closed form of the manager state after `n` broadcasts on a fresh manager,
for `1 ≤ n ≤ MAX_BUFFER_LINES + 1`. -/
theorem broadcastN_jobs (jid : String) :
    ∀ n, 1 ≤ n → n ≤ MAX_BUFFER_LINES + 1 →
      (broadcastN emptySSE jid n).jobs
        = [(jid,
            { lines := (List.range' (n + 1 - min n MAX_BUFFER_LINES)
                  (min n MAX_BUFFER_LINES)).map lineF
              event_counter := n
              is_complete := false
              subscribers := [] })] := by
  intro n
  induction n with
  | zero => omega
  | succ k ih =>
      intro _ h2
      by_cases hk : k = 0
      · subst hk
        simp [broadcastN, SSEManager.broadcast, getBuf, alGet, alSet, trimBuf,
          emptySSE, lineF, MAX_BUFFER_LINES]
      · have hk1 : 1 ≤ k := by omega
        have hk2 : k ≤ MAX_BUFFER_LINES := by
          simp [MAX_BUFFER_LINES] at h2 ⊢
          omega
        have ihh := ih hk1 (by omega)
        have hmink : min k MAX_BUFFER_LINES = k := by omega
        rw [hmink] at ihh
        have hstart : k + 1 - k = 1 := by omega
        rw [hstart] at ihh
        show (SSEManager.broadcast (broadcastN emptySSE jid k) jid .stdout "line" k).jobs = _
        rw [SSEManager.broadcast]
        rw [show getBuf (broadcastN emptySSE jid k) jid
            = { lines := (List.range' 1 k).map lineF
                event_counter := k
                is_complete := false
                subscribers := [] } from by rw [getBuf, ihh]; simp [alGet]]
        rw [ihh]
        have hline : ({ id := k + 1, type := .stdout, data := "line", timestamp := k }
            : StreamLine) = lineF (k + 1) := by
          simp [lineF]
        have happ : (List.range' 1 k).map lineF ++ [lineF (k + 1)]
            = (List.range' 1 (k + 1)).map lineF := by
          rw [List.range'_concat]
          simp [Nat.add_comm]
        simp only [alSet, if_pos rfl, hline, happ, List.map_nil]
        by_cases hcap : k + 1 ≤ MAX_BUFFER_LINES
        · have : ¬ ((List.range' 1 (k + 1)).map lineF).length > MAX_BUFFER_LINES := by
            simp [List.length_range']
            omega
          rw [trimBuf, if_neg this]
          have hmin : min (k + 1) MAX_BUFFER_LINES = k + 1 := by omega
          rw [hmin]
          have : k + 1 + 1 - (k + 1) = 1 := by omega
          rw [this]
          simp
        · have hcap' : k + 1 = MAX_BUFFER_LINES + 1 := by
            simp [MAX_BUFFER_LINES] at h2 hcap ⊢
            omega
          have hlen : ((List.range' 1 (k + 1)).map lineF).length > MAX_BUFFER_LINES := by
            simp [List.length_range']
            omega
          rw [trimBuf, if_pos hlen]
          have hdrop : ((List.range' 1 (k + 1)).map lineF).length - MAX_BUFFER_LINES = 1 := by
            simp [List.length_range']
            omega
          rw [hdrop]
          have hcons : List.range' 1 (k + 1) = 1 :: List.range' 2 k := by
            rw [List.range'_succ]
          rw [hcons]
          have hmin : min (k + 1) MAX_BUFFER_LINES = MAX_BUFFER_LINES := by omega
          rw [hmin]
          have : k + 1 + 1 - MAX_BUFFER_LINES = 2 := by omega
          rw [this]
          have : MAX_BUFFER_LINES = k := by omega
          rw [this]
          simp

/-- C7: broadcasting 501 events for one job with the 500-capacity ring buffer
retains exactly the most recent 500 events (ids 2..501; the oldest, id 1,
discarded), leaves the event counter at 501, and never reuses a sequence id
across eviction (retained ids strictly increasing). -/
theorem ring_buffer_overflow_scenario :
    (getBuf (broadcastN emptySSE "job-1" 501) "job-1").event_counter = 501 ∧
      (getBuf (broadcastN emptySSE "job-1" 501) "job-1").lines.length = 500 ∧
      ((getBuf (broadcastN emptySSE "job-1" 501) "job-1").lines.map StreamLine.id
        = List.range' 2 500) ∧
      1 ∉ ((getBuf (broadcastN emptySSE "job-1" 501) "job-1").lines.map StreamLine.id) ∧
      List.Chain' (· < ·)
        ((getBuf (broadcastN emptySSE "job-1" 501) "job-1").lines.map StreamLine.id) := by
  have h := broadcastN_jobs "job-1" 501 (by omega) (by simp [MAX_BUFFER_LINES])
  have hmin : min 501 MAX_BUFFER_LINES = 500 := by simp [MAX_BUFFER_LINES]
  rw [hmin] at h
  have hstart : 501 + 1 - 500 = 2 := by omega
  rw [hstart] at h
  have hbuf : getBuf (broadcastN emptySSE "job-1" 501) "job-1"
      = { lines := (List.range' 2 500).map lineF
          event_counter := 501
          is_complete := false
          subscribers := [] } := by
    rw [getBuf, h]
    simp [alGet]
  rw [hbuf]
  have hids : ((List.range' 2 500).map lineF).map StreamLine.id = List.range' 2 500 := by
    rw [List.map_map]
    have : StreamLine.id ∘ lineF = fun i => i := by
      funext i
      simp [lineF]
    rw [this, List.map_id']
  refine ⟨rfl, ?_, ?_, ?_, ?_⟩
  · simp [List.length_range']
  · exact hids
  · rw [hids]
    simp [List.mem_range'_1]
  · rw [hids]
    rw [List.chain'_iff_pairwise]
    exact List.pairwise_lt_range' 2 500

/-- A demo job record used for concrete witnesses. -/
def demoJob : GenerationJob := { id := "job-1", prompt := "sorting", createdAt := 0 }

/-- Witness for C8 at the concrete inputs named by the spec:
`percent = 150` stores 100 and `percent = -10` stores 0. -/
theorem update_progress_clamps_witness :
    (∃ p, (ProgressTracker.update_progress demoJob 150 "act" none none 7).progress
        = some p ∧ p.subProgress = 100) ∧
      (∃ p, (ProgressTracker.update_progress demoJob (-10) "act" none none 7).progress
        = some p ∧ p.subProgress = 0) := by
  constructor
  · obtain ⟨p, hp, _, hs⟩ :=
      (update_progress_clamps demoJob 150 "act" none none 7).2 rfl
    refine ⟨p, hp, ?_⟩
    rw [hs]
    norm_num
  · obtain ⟨p, hp, _, hs⟩ :=
      (update_progress_clamps demoJob (-10) "act" none none 7).2 rfl
    refine ⟨p, hp, ?_⟩
    rw [hs]
    norm_num

/-! ## More dictionary lemmas and closed forms of the bus operations -/

theorem alSet_alSet {β : Type} (l : List (String × β)) (k : String) (v w : β) :
    alSet (alSet l k v) k w = alSet l k w := by
  induction l with
  | nil => simp [alSet]
  | cons p t ih =>
      obtain ⟨k', v'⟩ := p
      by_cases h : k' = k
      · simp [alSet, h]
      · simp [alSet, h, ih]

/-- The buffer produced by one `broadcast` step on buffer `b`. -/
def broadcastBuf (b : JobBuffer) (t : StreamEventType) (d : String) (now : Nat) :
    JobBuffer :=
  { lines := trimBuf (b.lines ++ [⟨b.event_counter + 1, t, d, now⟩])
    event_counter := b.event_counter + 1
    is_complete := b.is_complete
    subscribers := b.subscribers.map
      (fun q => putNowait q ⟨b.event_counter + 1, t, d, now⟩) }

/-- The buffer produced by one `complete_job` step on buffer `b`. -/
def completeBuf (b : JobBuffer) (now : Nat) : JobBuffer :=
  broadcastBuf { b with is_complete := true } .status "completed" now

/-- Closed form of `broadcast` on a state whose buffer for `jid` is known. -/
theorem broadcast_eq (s : SSEState) (jid : String) (t : StreamEventType)
    (d : String) (now : Nat) (b : JobBuffer) (hb : alGet s.jobs jid = some b) :
    SSEManager.broadcast s jid t d now
      = { s with jobs := alSet s.jobs jid (broadcastBuf b t d now) } := by
  unfold SSEManager.broadcast getBuf broadcastBuf
  rw [hb]
  rfl

/-- Closed form of `complete_job` on a state whose buffer for `jid` is known:
set the completion flag, append a `"completed"` status event, and register a
fresh teardown task without cancelling a previously registered one. -/
theorem complete_job_eq (s : SSEState) (jid : String) (b : JobBuffer) (now : Nat)
    (hb : alGet s.jobs jid = some b) :
    SSEManager.complete_job s jid now
      = { jobs := alSet s.jobs jid (completeBuf b now)
          cleanup_tasks := alSet s.cleanup_tasks jid s.next_task
          live_tasks := s.live_tasks ++ [s.next_task]
          next_task := s.next_task + 1 } := by
  unfold SSEManager.complete_job
  rw [hb]
  simp only
  rw [broadcast_eq _ _ _ _ _ { b with is_complete := true }
    (by rw [alGet_alSet_self])]
  simp [alSet_alSet, completeBuf]

/-! ## C1 — `complete_job` is not idempotent -/

/-- A manager state holding one buffered event for `"job-1"`. -/
def demoBuffered : SSEState := SSEManager.broadcast emptySSE "job-1" .stdout "hello" 0

/-- C1 (counterexample): calling `complete_job` a second time on an existing
buffer is NOT a no-op: across the two calls the `"completed"` status event is
broadcast twice (two retained status lines, the event counter advances
again) and a second teardown task is scheduled. -/
theorem complete_job_not_idempotent :
    ((getBuf (SSEManager.complete_job
          (SSEManager.complete_job demoBuffered "job-1" 1) "job-1" 2) "job-1").lines.countP
        (fun l => l.type == .status && l.data == "completed") = 2) ∧
      (SSEManager.complete_job (SSEManager.complete_job demoBuffered "job-1" 1)
          "job-1" 2).live_tasks.length = 2 ∧
      (getBuf (SSEManager.complete_job
            (SSEManager.complete_job demoBuffered "job-1" 1) "job-1" 2) "job-1").event_counter
        = (getBuf (SSEManager.complete_job demoBuffered "job-1" 1) "job-1").event_counter
            + 1 := by
  decide

/-- C1 (amended): on an existing buffer, only the `is_complete` flag
assignment of `complete_job` is idempotent.  Each call — including a second
call on the same job id — broadcasts a fresh `"completed"` status event
(consuming a new sequence id) and schedules an additional grace-period
teardown task, replacing the tracked handle without cancelling the earlier
task; so across two calls two completion broadcasts occur and two teardown
tasks remain scheduled. -/
theorem complete_job_twice_amended (s : SSEState) (jid : String)
    (now₁ now₂ : Nat) (b : JobBuffer) (hb : alGet s.jobs jid = some b) :
    (∃ b1, alGet (SSEManager.complete_job s jid now₁).jobs jid = some b1 ∧
        b1.is_complete = true ∧ b1.event_counter = b.event_counter + 1) ∧
      (∃ b2, alGet (SSEManager.complete_job
            (SSEManager.complete_job s jid now₁) jid now₂).jobs jid = some b2 ∧
        b2.is_complete = true ∧ b2.event_counter = b.event_counter + 2 ∧
        (∃ l1 l2 : StreamLine, [l1, l2] <:+ b2.lines ∧
          l1.id = b.event_counter + 1 ∧ l1.type = .status ∧ l1.data = "completed" ∧
          l2.id = b.event_counter + 2 ∧ l2.type = .status ∧ l2.data = "completed")) ∧
      (SSEManager.complete_job (SSEManager.complete_job s jid now₁) jid now₂).live_tasks
        = s.live_tasks ++ [s.next_task, s.next_task + 1] ∧
      alGet (SSEManager.complete_job
          (SSEManager.complete_job s jid now₁) jid now₂).cleanup_tasks jid
        = some (s.next_task + 1) := by
  have h1 := complete_job_eq s jid b now₁ hb
  have hb1 : alGet (SSEManager.complete_job s jid now₁).jobs jid
      = some (completeBuf b now₁) := by
    rw [h1]
    simp only
    rw [alGet_alSet_self]
  have h2 := complete_job_eq _ jid (completeBuf b now₁) now₂ hb1
  have hb2 : alGet (SSEManager.complete_job
        (SSEManager.complete_job s jid now₁) jid now₂).jobs jid
      = some (completeBuf (completeBuf b now₁) now₂) := by
    rw [h2]
    simp only
    rw [alGet_alSet_self]
  refine ⟨⟨completeBuf b now₁, hb1, rfl, rfl⟩,
    ⟨completeBuf (completeBuf b now₁) now₂, hb2, rfl, rfl, ?_⟩, ?_, ?_⟩
  · refine ⟨⟨b.event_counter + 1, .status, "completed", now₁⟩,
      ⟨b.event_counter + 2, .status, "completed", now₂⟩, ?_, rfl, rfl, rfl, rfl, rfl, rfl⟩
    have hfst : [(⟨b.event_counter + 1, .status, "completed", now₁⟩ : StreamLine)]
        <:+ (completeBuf b now₁).lines := by
      unfold completeBuf broadcastBuf
      simp only
      have := suffix_snoc_trimBuf
        (s := []) (l := b.lines)
        (⟨b.event_counter + 1, .status, "completed", now₁⟩ : StreamLine)
        (List.nil_suffix) (by simp [MAX_BUFFER_LINES])
      simpa using this
    have := suffix_snoc_trimBuf
      (s := [⟨b.event_counter + 1, .status, "completed", now₁⟩])
      (l := (completeBuf b now₁).lines)
      (⟨b.event_counter + 2, .status, "completed", now₂⟩ : StreamLine)
      hfst (by simp [MAX_BUFFER_LINES])
    simpa [completeBuf, broadcastBuf] using this
  · rw [h2, h1]
    simp
  · rw [h2]
    simp only
    rw [h1]
    simp only
    rw [alGet_alSet_self]

/-- Witness for C1's amended theorem at a concrete input. -/
theorem complete_job_twice_amended_witness :
    (SSEManager.complete_job (SSEManager.complete_job demoBuffered "job-1" 1)
        "job-1" 2).live_tasks
      = demoBuffered.live_tasks ++ [demoBuffered.next_task, demoBuffered.next_task + 1] :=
  (complete_job_twice_amended demoBuffered "job-1" 1 2
    ⟨[⟨1, .stdout, "hello", 0⟩], 1, false, []⟩ (by decide)).2.2.1

/-! ## C3 — the history backfill -/

/-- Cancelling a pending teardown never touches the buffer table. -/
theorem cancelPendingCleanup_jobs (s : SSEState) (jid : String) :
    (cancelPendingCleanup s jid).jobs = s.jobs := by
  unfold cancelPendingCleanup
  cases alGet s.cleanup_tasks jid <;> rfl

/-- C3 (counterexample): a subscriber that supplies NO `lastSeenId` still
receives a history event (the full retained buffer is replayed), contrary to
the claim that a history event is yielded only if `lastSeenId` is given. -/
theorem subscribe_history_without_last_id :
    (subHistory (subConnect demoBuffered "job-1" 1).1 "job-1" none 2).2
      = some (.historyEvent 3 [⟨1, .stdout, "hello", 0⟩] 2) := by
  decide

/-- C3 (amended): `subscribe` first yields a synthetic connected event; it
then yields a single history event if and only if some retained event has a
sequence id greater than `lastSeenId`-or-`0` (so with no `lastSeenId` the
whole retained buffer is replayed whenever it is nonempty); when yielded,
the history payload is exactly the retained events with id greater than that
threshold, in buffer order, hence no duplicates of events with id at most
`lastSeenId`. -/
theorem subscribe_history_amended (s : SSEState) (jid : String)
    (lastSeen : Option Nat) (now₁ now₂ : Nat) :
    (∃ l : StreamLine, (subConnect s jid now₁).2 = .line l ∧ l.type = .connected ∧
        l.id = (getBuf (subConnect s jid now₁).1 jid).event_counter) ∧
      (((subHistory (subConnect s jid now₁).1 jid lastSeen now₂).2 ≠ none)
        ↔ ∃ e ∈ (getBuf (subConnect s jid now₁).1 jid).lines, lastSeen.getD 0 < e.id) ∧
      (∀ i payload ts,
        (subHistory (subConnect s jid now₁).1 jid lastSeen now₂).2
            = some (.historyEvent i payload ts) →
        payload = (getBuf (subConnect s jid now₁).1 jid).lines.filter
            (fun e => lastSeen.getD 0 < e.id) ∧
          ∀ e ∈ payload, lastSeen.getD 0 < e.id) := by
  refine ⟨?_, ?_, ?_⟩
  · refine ⟨_, rfl, rfl, ?_⟩
    simp [subConnect, getBuf, cancelPendingCleanup_jobs, alGet_alSet_self]
  · unfold subHistory
    by_cases hnil : (getBuf (subConnect s jid now₁).1 jid).lines = []
    · simp [hnil]
    · by_cases hmiss : (getBuf (subConnect s jid now₁).1 jid).lines.filter
          (fun l => lastSeen.getD 0 < l.id) = []
      · simp [hnil, hmiss]
        intro e he
        have := List.filter_eq_nil_iff.mp hmiss e he
        simpa using this
      · simp [hnil, hmiss]
        obtain ⟨e, he⟩ := List.exists_mem_of_ne_nil _ hmiss
        have := List.mem_filter.mp he
        exact ⟨e, this.1, by simpa using this.2⟩
  · intro i payload ts h
    unfold subHistory at h
    by_cases hnil : (getBuf (subConnect s jid now₁).1 jid).lines = []
    · simp [hnil] at h
    · by_cases hmiss : (getBuf (subConnect s jid now₁).1 jid).lines.filter
          (fun l => lastSeen.getD 0 < l.id) = []
      · simp [hnil, hmiss] at h
      · simp only [hnil, hmiss, if_neg] at h
        simp [hnil, hmiss] at h
        obtain ⟨-, hpay, -⟩ := h
        constructor
        · exact hpay.symm
        · intro e he
          rw [← hpay] at he
          have := List.mem_filter.mp he
          simpa using this.2

/-- Witness for C3's amended theorem: a reconnecting subscriber that has
already seen every retained event receives no history event. -/
theorem subscribe_history_amended_witness :
    (subHistory (subConnect demoBuffered "job-1" 1).1 "job-1" (some 1) 2).2 = none := by
  have h := (subscribe_history_amended demoBuffered "job-1" (some 1) 1 2).2.1
  exact not_ne_iff.mp (fun hne => absurd (h.mp hne) (by decide))

/-! ## C6 — `delete_job` and the broadcast bus -/

/-- A demo process state: one job with a streaming buffer and media files. -/
def demoServer : ServerState :=
  { jobs := [("job-1", demoJob)]
    sse := demoBuffered
    videos := ["job-1.mp4"]
    audioDir := ["job-1_step_0.mp3", "other.mp3"] }

/-- C6 (counterexample): deleting an existing job leaves the SSE manager
untouched — the job's buffer survives `delete_job`, so Broadcast Bus cleanup
is NOT invoked, contrary to the claim. -/
theorem delete_job_keeps_sse_buffer :
    Option.map (fun st' => alGet st'.sse.jobs "job-1") (delete_job demoServer "job-1")
      = some (some { lines := [⟨1, .stdout, "hello", 0⟩]
                     event_counter := 1
                     is_complete := false
                     subscribers := [] }) := by
  decide

/-- C6 (amended): `delete_job` on an existing job removes the job record and
discards its retained media artifacts (the video file and the audio files),
but does NOT invoke Broadcast Bus cleanup: the SSE manager state — the
job's buffer, subscriber registrations and any pending teardown — is left
exactly as it was. -/
theorem delete_job_amended (st : ServerState) (jid : String)
    (job : GenerationJob) (hjob : alGet st.jobs jid = some job) :
    ∃ st', delete_job st jid = some st' ∧
      alGet st'.jobs jid = none ∧
      (jid ++ ".mp4") ∉ st'.videos ∧
      (∀ f ∈ st'.audioDir, ¬ matchesAudioGlob jid f) ∧
      st'.sse = st.sse := by
  unfold delete_job
  rw [hjob]
  refine ⟨_, rfl, ?_, ?_, ?_, rfl⟩
  · exact alGet_alErase_self _ _
  · simp [deleteVideoFile]
  · intro f hf
    have := List.of_mem_filter hf
    simpa using this

/-- Witness for C6's amended theorem at a concrete input. -/
theorem delete_job_amended_witness :
    ∃ st', delete_job demoServer "job-1" = some st' ∧
      alGet st'.jobs "job-1" = none ∧
      ("job-1" ++ ".mp4") ∉ st'.videos ∧
      (∀ f ∈ st'.audioDir, ¬ matchesAudioGlob "job-1" f) ∧
      st'.sse = demoServer.sse :=
  delete_job_amended demoServer "job-1" demoJob (by decide)

/-! ## C9 — a late subscriber cancels the scheduled teardown for good -/

/-- The buffer after `subConnect` registers a subscriber. -/
def subConnectBuf (b : JobBuffer) : JobBuffer :=
  { b with event_counter := b.event_counter + 1, subscribers := b.subscribers ++ [[]] }

/-- Closed form of `subConnect` when the buffer exists and a teardown task is
pending: the task is cancelled and a fresh queue is registered. -/
theorem subConnect_eq (s : SSEState) (jid : String) (now : Nat) (b : JobBuffer)
    (tid : Nat) (hb : alGet s.jobs jid = some b)
    (ht : alGet s.cleanup_tasks jid = some tid) :
    (subConnect s jid now).1
      = { jobs := alSet s.jobs jid (subConnectBuf b)
          cleanup_tasks := alErase s.cleanup_tasks jid
          live_tasks := s.live_tasks.filter (fun t => t ≠ tid)
          next_task := s.next_task } := by
  unfold subConnect cancelPendingCleanup
  simp [hb, ht, getBuf, subConnectBuf]

/-- Closed form of the subscriber deregistration. -/
theorem subFinalize_eq (s : SSEState) (jid : String) (b : JobBuffer) (i : Nat)
    (hb : alGet s.jobs jid = some b) :
    subFinalize s jid i
      = { s with jobs := alSet s.jobs jid ({ b with subscribers := b.subscribers.eraseIdx i }) } := by
  unfold subFinalize
  rw [hb]

theorem eraseIdx_append_singleton {α : Type} (l : List α) (x : α) :
    (l ++ [x]).eraseIdx l.length = l := by
  induction l with
  | nil => rfl
  | cons a t ih => simpa [List.eraseIdx] using ih

/-- C9: if `subscribe` runs for a job after `complete_job` scheduled its
grace-period teardown, the pending task is cancelled, and when that
subscriber's stream later terminates the teardown is never rescheduled: no
teardown remains registered, the cancelled task is gone, and the buffer
(with its advanced counter and completion flag) is retained until an
explicit `cleanup` call, which alone removes it. -/
theorem late_subscriber_cancels_teardown (s : SSEState) (jid : String)
    (now₁ now₂ : Nat) (b : JobBuffer) (hb : alGet s.jobs jid = some b)
    (hfresh : s.next_task ∉ s.live_tasks) :
    alGet (subFinalize (subConnect (SSEManager.complete_job s jid now₁) jid now₂).1 jid
        (completeBuf b now₁).subscribers.length).cleanup_tasks jid = none ∧
      (subFinalize (subConnect (SSEManager.complete_job s jid now₁) jid now₂).1 jid
          (completeBuf b now₁).subscribers.length).live_tasks = s.live_tasks ∧
      (alGet (subFinalize (subConnect (SSEManager.complete_job s jid now₁) jid now₂).1 jid
            (completeBuf b now₁).subscribers.length).jobs jid
        = some { completeBuf b now₁ with event_counter := b.event_counter + 2 }) ∧
      ({ completeBuf b now₁ with event_counter := b.event_counter + 2 }).is_complete = true ∧
      alGet (SSEManager.cleanup
          (subFinalize (subConnect (SSEManager.complete_job s jid now₁) jid now₂).1 jid
            (completeBuf b now₁).subscribers.length) jid).jobs jid = none := by
  have h1 := complete_job_eq s jid b now₁ hb
  have hb1 : alGet (SSEManager.complete_job s jid now₁).jobs jid
      = some (completeBuf b now₁) := by
    rw [h1]
    exact alGet_alSet_self _ _ _
  have ht1 : alGet (SSEManager.complete_job s jid now₁).cleanup_tasks jid
      = some s.next_task := by
    rw [h1]
    exact alGet_alSet_self _ _ _
  have h2 := subConnect_eq (SSEManager.complete_job s jid now₁) jid now₂
    (completeBuf b now₁) s.next_task hb1 ht1
  have hb2 : alGet (subConnect (SSEManager.complete_job s jid now₁) jid now₂).1.jobs jid
      = some (subConnectBuf (completeBuf b now₁)) := by
    rw [h2]
    exact alGet_alSet_self _ _ _
  have h3 := subFinalize_eq (subConnect (SSEManager.complete_job s jid now₁) jid now₂).1
    jid (subConnectBuf (completeBuf b now₁)) (completeBuf b now₁).subscribers.length hb2
  have hsub : (subConnectBuf (completeBuf b now₁)).subscribers.eraseIdx
      (completeBuf b now₁).subscribers.length = (completeBuf b now₁).subscribers := by
    unfold subConnectBuf
    exact eraseIdx_append_singleton _ _
  have hlive : (s.live_tasks ++ [s.next_task]).filter
      (fun t => t ≠ s.next_task) = s.live_tasks := by
    rw [List.filter_append]
    have hl : s.live_tasks.filter (fun t => t ≠ s.next_task) = s.live_tasks := by
      apply List.filter_eq_self.mpr
      intro a ha
      simp only [decide_eq_true_iff]
      intro heq
      exact hfresh (heq ▸ ha)
    rw [hl]
    simp
  refine ⟨?_, ?_, ?_, rfl, ?_⟩
  · rw [h3, h2, h1]
    exact alGet_alErase_self _ _
  · rw [h3, h2, h1]
    exact hlive
  · rw [h3]
    refine (alGet_alSet_self _ jid _).trans ?_
    rw [hsub]
    rfl
  · unfold SSEManager.cleanup
    simp only [cancelPendingCleanup_jobs]
    simp [alGet_alErase_self]

/-- Witness for C9 at a concrete input. -/
theorem late_subscriber_cancels_teardown_witness :
    alGet (subFinalize (subConnect (SSEManager.complete_job demoBuffered "job-1" 1)
          "job-1" 2).1 "job-1"
        (completeBuf ⟨[⟨1, .stdout, "hello", 0⟩], 1, false, []⟩ 1).subscribers.length).cleanup_tasks
      "job-1" = none :=
  (late_subscriber_cancels_teardown demoBuffered "job-1" 1 2
    ⟨[⟨1, .stdout, "hello", 0⟩], 1, false, []⟩ (by decide) (by decide)).1

/-! ## C5 — failure semantics of the pipeline -/

theorem log_content (job : GenerationJob) (m : String) (now : Nat) :
    (ProgressTracker.log job m now).content = job.content := by
  cases hjp : job.progress <;> simp [ProgressTracker.log, hjp]

theorem log_audioFiles (job : GenerationJob) (m : String) (now : Nat) :
    (ProgressTracker.log job m now).audioFiles = job.audioFiles := by
  cases hjp : job.progress <;> simp [ProgressTracker.log, hjp]

theorem log_videoPath (job : GenerationJob) (m : String) (now : Nat) :
    (ProgressTracker.log job m now).videoPath = job.videoPath := by
  cases hjp : job.progress <;> simp [ProgressTracker.log, hjp]

theorem log_status (job : GenerationJob) (m : String) (now : Nat) :
    (ProgressTracker.log job m now).status = job.status := by
  cases hjp : job.progress <;> simp [ProgressTracker.log, hjp]

theorem log_error (job : GenerationJob) (m : String) (now : Nat) :
    (ProgressTracker.log job m now).error = job.error := by
  cases hjp : job.progress <;> simp [ProgressTracker.log, hjp]

theorem log_completedAt (job : GenerationJob) (m : String) (now : Nat) :
    (ProgressTracker.log job m now).completedAt = job.completedAt := by
  cases hjp : job.progress <;> simp [ProgressTracker.log, hjp]

theorem start_phase_content (job : GenerationJob) (st : JobStatus)
    (ts : Option Nat) (now : Nat) :
    (ProgressTracker.start_phase job st ts now).content = job.content := by
  unfold ProgressTracker.start_phase
  simp [log_content]

theorem start_phase_audioFiles (job : GenerationJob) (st : JobStatus)
    (ts : Option Nat) (now : Nat) :
    (ProgressTracker.start_phase job st ts now).audioFiles = job.audioFiles := by
  unfold ProgressTracker.start_phase
  simp [log_audioFiles]

theorem start_phase_videoPath (job : GenerationJob) (st : JobStatus)
    (ts : Option Nat) (now : Nat) :
    (ProgressTracker.start_phase job st ts now).videoPath = job.videoPath := by
  unfold ProgressTracker.start_phase
  simp [log_videoPath]

theorem complete_phase_content (job : GenerationJob) (now : Nat) :
    (ProgressTracker.complete_phase job now).content = job.content := by
  cases hjp : job.progress <;> simp [ProgressTracker.complete_phase, hjp, log_content]

theorem complete_phase_audioFiles (job : GenerationJob) (now : Nat) :
    (ProgressTracker.complete_phase job now).audioFiles = job.audioFiles := by
  cases hjp : job.progress <;> simp [ProgressTracker.complete_phase, hjp, log_audioFiles]

theorem complete_phase_videoPath (job : GenerationJob) (now : Nat) :
    (ProgressTracker.complete_phase job now).videoPath = job.videoPath := by
  cases hjp : job.progress <;> simp [ProgressTracker.complete_phase, hjp, log_videoPath]

theorem set_error_status (job : GenerationJob) (m : String) (now : Nat) :
    (ProgressTracker.set_error job m now).status = JobStatus.error := by
  unfold ProgressTracker.set_error
  simp [log_status]

theorem set_error_error (job : GenerationJob) (m : String) (now : Nat) :
    (ProgressTracker.set_error job m now).error = some m := by
  unfold ProgressTracker.set_error
  simp [log_error]

theorem set_error_completedAt (job : GenerationJob) (m : String) (now : Nat) :
    (ProgressTracker.set_error job m now).completedAt = some now := by
  unfold ProgressTracker.set_error
  simp [log_completedAt]

theorem set_error_content (job : GenerationJob) (m : String) (now : Nat) :
    (ProgressTracker.set_error job m now).content = job.content := by
  unfold ProgressTracker.set_error
  simp [log_content]

theorem set_error_audioFiles (job : GenerationJob) (m : String) (now : Nat) :
    (ProgressTracker.set_error job m now).audioFiles = job.audioFiles := by
  unfold ProgressTracker.set_error
  simp [log_audioFiles]

theorem set_error_videoPath (job : GenerationJob) (m : String) (now : Nat) :
    (ProgressTracker.set_error job m now).videoPath = job.videoPath := by
  unfold ProgressTracker.set_error
  simp [log_videoPath]

/-- `broadcast` in terms of the (possibly default) buffer view. -/
theorem broadcast_getBuf_eq (s : SSEState) (jid : String) (t : StreamEventType)
    (d : String) (now : Nat) :
    SSEManager.broadcast s jid t d now
      = { s with jobs := alSet s.jobs jid (broadcastBuf (getBuf s jid) t d now) } := rfl

/-- Broadcasting an `"error"` status event and then completing the job leaves
a completed buffer that retains the error status line. -/
theorem broadcast_error_then_complete (sse : SSEState) (jid : String)
    (now₁ now₂ : Nat) :
    ∃ b, alGet (SSEManager.complete_job
          (SSEManager.broadcast sse jid .status "error" now₁) jid now₂).jobs jid
        = some b ∧
      b.is_complete = true ∧ ∃ l ∈ b.lines, l.type = .status ∧ l.data = "error" := by
  have hb1 : alGet (SSEManager.broadcast sse jid .status "error" now₁).jobs jid
      = some (broadcastBuf (getBuf sse jid) .status "error" now₁) := by
    rw [broadcast_getBuf_eq]
    exact alGet_alSet_self _ _ _
  have h2 := complete_job_eq _ jid (broadcastBuf (getBuf sse jid) .status "error" now₁)
    now₂ hb1
  have hfst : [(⟨(getBuf sse jid).event_counter + 1, .status, "error", now₁⟩ : StreamLine)]
      <:+ (broadcastBuf (getBuf sse jid) .status "error" now₁).lines := by
    unfold broadcastBuf
    simp only
    have := suffix_snoc_trimBuf (s := []) (l := (getBuf sse jid).lines)
      (⟨(getBuf sse jid).event_counter + 1, .status, "error", now₁⟩ : StreamLine)
      List.nil_suffix (by simp [MAX_BUFFER_LINES])
    simpa using this
  have hsnd := suffix_snoc_trimBuf
    (s := [⟨(getBuf sse jid).event_counter + 1, .status, "error", now₁⟩])
    (l := (broadcastBuf (getBuf sse jid) .status "error" now₁).lines)
    (⟨(broadcastBuf (getBuf sse jid) .status "error" now₁).event_counter + 1,
      .status, "completed", now₂⟩ : StreamLine)
    hfst (by simp [MAX_BUFFER_LINES])
  refine ⟨completeBuf (broadcastBuf (getBuf sse jid) .status "error" now₁) now₂, ?_, rfl, ?_⟩
  · rw [h2]
    exact alGet_alSet_self _ _ _
  · refine ⟨⟨(getBuf sse jid).event_counter + 1, .status, "error", now₁⟩, ?_, rfl, rfl⟩
    have hmem : (⟨(getBuf sse jid).event_counter + 1, .status, "error", now₁⟩ : StreamLine)
        ∈ ([⟨(getBuf sse jid).event_counter + 1, .status, "error", now₁⟩,
            ⟨(broadcastBuf (getBuf sse jid) .status "error" now₁).event_counter + 1,
              .status, "completed", now₂⟩] : List StreamLine) := by
      simp
    exact hsnd.subset hmem

/-- C5: whenever any pipeline stage fails (the collaborator's outcome is an
error — covering collaborator failures, deadline expiry and malformed
results alike), the job ends in the `Error` state with a human-readable
message and `completedAt` stamped; result fields of stages that had not yet
succeeded remain absent (`videoPath` always, and `audioFiles` when content
generation or audio generation failed); an `"error"` status event is
broadcast; and the broadcast bus is told the job is complete. -/
theorem pipeline_failure_semantics (st : ServerState) (job_id : String)
    (job : GenerationJob) (contentRes : Except String TutorialContent)
    (audioRes : Except String (List String)) (renderRes : Except String String)
    (now : Nat) (hjob : alGet st.jobs job_id = some job)
    (hc : job.content = none) (ha : job.audioFiles = none)
    (hv : job.videoPath = none)
    (hfail : (∃ e, contentRes = .error e) ∨ (∃ e, audioRes = .error e) ∨
      (∃ e, renderRes = .error e)) :
    ∃ job', alGet (process_job st job_id contentRes audioRes renderRes now).jobs job_id
        = some job' ∧
      job'.status = JobStatus.error ∧ (∃ m, job'.error = some m) ∧
      job'.completedAt = some now ∧
      job'.videoPath = none ∧
      ((∃ e, contentRes = .error e) → job'.content = none ∧ job'.audioFiles = none) ∧
      ((∃ e, audioRes = .error e) → job'.audioFiles = none) ∧
      (∃ b, alGet (process_job st job_id contentRes audioRes renderRes now).sse.jobs job_id
          = some b ∧ b.is_complete = true ∧
        ∃ l ∈ b.lines, l.type = .status ∧ l.data = "error") := by
  cases contentRes with
  | error e =>
      simp only [process_job, hjob, processJobError]
      refine ⟨_, alGet_alSet_self _ _ _, set_error_status _ _ _,
        ⟨e, set_error_error _ _ _⟩, set_error_completedAt _ _ _, ?_, ?_, ?_, ?_⟩
      · rw [set_error_videoPath, start_phase_videoPath]
        exact hv
      · intro _
        constructor
        · rw [set_error_content, start_phase_content]
          exact hc
        · rw [set_error_audioFiles, start_phase_audioFiles]
          exact ha
      · intro _
        rw [set_error_audioFiles, start_phase_audioFiles]
        exact ha
      · exact broadcast_error_then_complete _ job_id now now
  | ok c =>
      cases audioRes with
      | error e =>
          simp only [process_job, hjob, processJobError]
          refine ⟨_, alGet_alSet_self _ _ _, set_error_status _ _ _,
            ⟨e, set_error_error _ _ _⟩, set_error_completedAt _ _ _, ?_, ?_, ?_, ?_⟩
          · rw [set_error_videoPath, start_phase_videoPath, complete_phase_videoPath]
            exact hv
          · rintro ⟨e', he'⟩
            exact Except.noConfusion he'
          · intro _
            rw [set_error_audioFiles, start_phase_audioFiles, complete_phase_audioFiles]
            exact ha
          · exact broadcast_error_then_complete _ job_id now now
      | ok afs =>
          cases renderRes with
          | error e =>
              simp only [process_job, hjob, processJobError]
              refine ⟨_, alGet_alSet_self _ _ _, set_error_status _ _ _,
                ⟨e, set_error_error _ _ _⟩, set_error_completedAt _ _ _, ?_, ?_, ?_, ?_⟩
              · rw [set_error_videoPath, start_phase_videoPath, complete_phase_videoPath]
                exact hv
              · rintro ⟨e', he'⟩
                exact Except.noConfusion he'
              · rintro ⟨e', he'⟩
                exact Except.noConfusion he'
              · exact broadcast_error_then_complete _ job_id now now
          | ok vp =>
              exfalso
              rcases hfail with ⟨e, he⟩ | ⟨e, he⟩ | ⟨e, he⟩ <;>
                exact Except.noConfusion he

/-- Witness for C5 at a concrete input: a failure during audio generation. -/
theorem pipeline_failure_semantics_witness :
    ∃ job', alGet (process_job demoServer "job-1" (Except.ok ⟨"t", []⟩)
          (Except.error "tts failed") (Except.ok "v.mp4") 5).jobs "job-1"
        = some job' ∧
      job'.status = JobStatus.error ∧ (∃ m, job'.error = some m) ∧
      job'.completedAt = some 5 ∧
      job'.videoPath = none ∧
      ((∃ e, (Except.ok (⟨"t", []⟩ : TutorialContent) : Except String TutorialContent)
          = .error e) → job'.content = none ∧ job'.audioFiles = none) ∧
      ((∃ e, (Except.error "tts failed" : Except String (List String)) = .error e) →
        job'.audioFiles = none) ∧
      (∃ b, alGet (process_job demoServer "job-1" (Except.ok ⟨"t", []⟩)
            (Except.error "tts failed") (Except.ok "v.mp4") 5).sse.jobs "job-1"
          = some b ∧ b.is_complete = true ∧
        ∃ l ∈ b.lines, l.type = .status ∧ l.data = "error") :=
  pipeline_failure_semantics demoServer "job-1" demoJob (Except.ok ⟨"t", []⟩)
    (Except.error "tts failed") (Except.ok "v.mp4") 5 (by decide) rfl rfl rfl
    (Or.inr (Or.inl ⟨"tts failed", rfl⟩))

/-! ## C2 — sequence ids observed by a single subscriber -/

/-- C2 (counterexample): with a broadcast interleaved between the subscriber's
connected yield and its history computation (both are separate suspension
points of the generator), the subscriber observes envelope ids `[1, 3, 2]` —
the history event consumes id 3 while the live event with id 2 is still
queued — which is not strictly increasing. -/
theorem subscriber_ids_not_increasing :
    obsIds (runTrace "j" none emptySSE
        [.connect, .bcast .stdout "a", .history, .deq]) = [1, 3, 2] ∧
      ¬ List.Chain' (· < ·) (obsIds (runTrace "j" none emptySSE
        [.connect, .bcast .stdout "a", .history, .deq])) := by
  have hids : obsIds (runTrace "j" none emptySSE
      [.connect, .bcast .stdout "a", .history, .deq]) = [1, 3, 2] := rfl
  refine ⟨hids, ?_⟩
  rw [hids]
  intro h
  have h2 := List.chain'_iff_pairwise.mp h
  have h3 := List.rel_of_pairwise_cons (List.pairwise_cons.mp h2).2
    (show (2 : Nat) ∈ [2] by simp)
  omega

theorem mem_of_getLast? {α : Type} {l : List α} {x : α} (h : x ∈ l.getLast?) :
    x ∈ l := by
  obtain ⟨hne, heq⟩ := List.mem_getLast?_eq_getLast h
  rw [heq]
  exact List.getLast_mem hne

/-- Number of broadcast actions in a schedule. -/
def bcastCount (acts : List SubAction) : Nat :=
  acts.countP (fun a => match a with
    | .bcast _ _ => true
    | _ => false)

/-- Invariant of the streaming loop of one subscription: the subscriber (the
only one, with queue `q` and connected id `conn`) has observed strictly
increasing ids bounded by the counter, every queued id exceeds every
observed id, and every retained line is accounted for (already observed,
still queued, or older than the connection). -/
def C2Inv (jid : String) (q : List StreamLine) (conn : Nat) (ts : TraceState) :
    Prop :=
  ts.phase = 2 ∧
  ∃ buf : JobBuffer,
    alGet ts.mgr.jobs jid = some buf ∧
    buf.subscribers = [q] ∧
    List.Chain' (· < ·) (q.map StreamLine.id) ∧
    (∀ l ∈ q, l.id ≤ buf.event_counter) ∧
    (∀ o ∈ obsIds ts, ∀ l ∈ q, o < l.id) ∧
    List.Chain' (· < ·) (obsIds ts) ∧
    (∀ o ∈ obsIds ts, o ≤ buf.event_counter) ∧
    (∀ l ∈ buf.lines, l.id ≤ buf.event_counter) ∧
    (obsIds ts).head? = some conn ∧
    (∀ l ∈ buf.lines, l.id ∈ obsIds ts ∨ l.id ∈ q.map StreamLine.id ∨ l.id < conn)

/-- A dequeue step preserves the invariant and never grows the queue. -/
theorem c2_step_deq (jid : String) (lastSeen : Option Nat) (ts : TraceState)
    (q : List StreamLine) (conn : Nat) (h : C2Inv jid q conn ts) :
    ∃ q', C2Inv jid q' conn (traceStep jid lastSeen ts SubAction.deq) ∧
      q'.length ≤ q.length := by
  obtain ⟨hphase, buf, hbuf, hsubs, qchain, qle, oltq, ochain, ole, lle, hhead, cover⟩ := h
  have hgb : getBuf ts.mgr jid = buf := by
    rw [getBuf, hbuf]
    rfl
  cases q with
  | nil =>
      have hstep : traceStep jid lastSeen ts SubAction.deq = ts := by
        unfold traceStep
        simp [hphase, hgb, hsubs]
      rw [hstep]
      exact ⟨[], ⟨hphase, buf, hbuf, hsubs, qchain, qle, oltq, ochain, ole, lle,
        hhead, cover⟩, le_refl _⟩
  | cons l qrest =>
      have hstep : traceStep jid lastSeen ts SubAction.deq
          = { mgr := { ts.mgr with
                jobs := alSet ts.mgr.jobs jid ({ buf with subscribers := [qrest] }) }
              phase := 2
              observed := ts.observed ++ [.line l] } := by
        unfold traceStep
        simp [hphase, hgb, hsubs]
      have hlq : l ∈ l :: qrest := List.mem_cons_self _ _
      have hqid : List.Chain' (· < ·) (l.id :: qrest.map StreamLine.id) := by
        simpa using qchain
      have hpw := List.chain'_iff_pairwise.mp hqid
      have hl_lt : ∀ x ∈ qrest.map StreamLine.id, l.id < x :=
        fun x hx => List.rel_of_pairwise_cons hpw hx
      have hobs' : obsIds (traceStep jid lastSeen ts SubAction.deq)
          = obsIds ts ++ [l.id] := by
        rw [hstep]
        simp [obsIds, Emitted.eid]
      refine ⟨qrest, ⟨?_, { buf with subscribers := [qrest] }, ?_, rfl, ?_, ?_, ?_,
        ?_, ?_, ?_, ?_, ?_⟩, by simp⟩
      · rw [hstep]
      · rw [hstep]
        exact alGet_alSet_self _ _ _
      · simpa using hqid.tail
      · intro x hx
        exact qle x (List.mem_cons_of_mem _ hx)
      · rw [hobs']
        intro o ho x hx
        rcases List.mem_append.mp ho with ho | ho
        · exact oltq o ho x (List.mem_cons_of_mem _ hx)
        · have heq : o = l.id := by simpa using ho
          subst heq
          exact hl_lt x.id (List.mem_map.mpr ⟨x, hx, rfl⟩)
      · rw [hobs', List.chain'_append]
        refine ⟨ochain, by simp, ?_⟩
        intro x hx y hy
        have hxmem : x ∈ obsIds ts := mem_of_getLast? hx
        have heq : l.id = y := by simpa using hy
        subst heq
        exact oltq x hxmem l hlq
      · rw [hobs']
        intro o ho
        rcases List.mem_append.mp ho with ho | ho
        · exact ole o ho
        · have heq : o = l.id := by simpa using ho
          subst heq
          exact qle l hlq
      · intro x hx
        exact lle x hx
      · rw [hobs', List.head?_append, hhead]
        rfl
      · rw [hobs']
        intro x hx
        rcases cover x hx with hc | hc | hc
        · exact Or.inl (List.mem_append.mpr (Or.inl hc))
        · have hcc : x.id = l.id ∨ x.id ∈ qrest.map StreamLine.id := by
            simpa using hc
          rcases hcc with hh | hh
          · exact Or.inl (List.mem_append.mpr (Or.inr (by simp [hh])))
          · exact Or.inr (Or.inl hh)
        · exact Or.inr (Or.inr hc)

/-- A broadcast step preserves the invariant when the queue has room,
growing the queue by exactly the new event. -/
theorem c2_step_bcast (jid : String) (lastSeen : Option Nat) (ts : TraceState)
    (q : List StreamLine) (conn : Nat) (t : StreamEventType) (d : String)
    (h : C2Inv jid q conn ts) (hlen : q.length < SUBSCRIBER_QUEUE_MAXSIZE) :
    ∃ q', C2Inv jid q' conn (traceStep jid lastSeen ts (SubAction.bcast t d)) ∧
      q'.length = q.length + 1 := by
  obtain ⟨hphase, buf, hbuf, hsubs, qchain, qle, oltq, ochain, ole, lle, hhead, cover⟩ := h
  have hstep : traceStep jid lastSeen ts (SubAction.bcast t d)
      = { ts with mgr := SSEManager.broadcast ts.mgr jid t d 0 } := rfl
  have hbc := broadcast_eq ts.mgr jid t d 0 buf hbuf
  have hput : putNowait q ⟨buf.event_counter + 1, t, d, 0⟩
      = q ++ [⟨buf.event_counter + 1, t, d, 0⟩] := by
    unfold putNowait
    rw [if_pos hlen]
  have hobs' : obsIds (traceStep jid lastSeen ts (SubAction.bcast t d)) = obsIds ts := rfl
  have hsubs' : (broadcastBuf buf t d 0).subscribers
      = [q ++ [⟨buf.event_counter + 1, t, d, 0⟩]] := by
    unfold broadcastBuf
    rw [hsubs]
    simp [hput]
  refine ⟨q ++ [⟨buf.event_counter + 1, t, d, 0⟩], ⟨?_, broadcastBuf buf t d 0, ?_,
    hsubs', ?_, ?_, ?_, ?_, ?_, ?_, ?_, ?_⟩, by simp⟩
  · rw [hstep]
    exact hphase
  · rw [hstep]
    show alGet (SSEManager.broadcast ts.mgr jid t d 0).jobs jid = _
    rw [hbc]
    exact alGet_alSet_self _ _ _
  · rw [List.map_append, List.chain'_append]
    refine ⟨qchain, by simp, ?_⟩
    intro x hx y hy
    have hxmem : x ∈ q.map StreamLine.id := mem_of_getLast? hx
    have heq : buf.event_counter + 1 = y := by simpa using hy
    subst heq
    rcases List.mem_map.mp hxmem with ⟨z, hz, hzx⟩
    have := qle z hz
    omega
  · intro x hx
    rcases List.mem_append.mp hx with hx | hx
    · have := qle x hx
      show x.id ≤ (broadcastBuf buf t d 0).event_counter
      unfold broadcastBuf
      simp only
      omega
    · have heq : x = ⟨buf.event_counter + 1, t, d, 0⟩ := by simpa using hx
      subst heq
      exact le_refl _
  · rw [hobs']
    intro o ho x hx
    rcases List.mem_append.mp hx with hx | hx
    · exact oltq o ho x hx
    · have heq : x = ⟨buf.event_counter + 1, t, d, 0⟩ := by simpa using hx
      subst heq
      have := ole o ho
      show o < buf.event_counter + 1
      omega
  · rw [hobs']
    exact ochain
  · rw [hobs']
    intro o ho
    have := ole o ho
    show o ≤ (broadcastBuf buf t d 0).event_counter
    unfold broadcastBuf
    simp only
    omega
  · intro x hx
    have hx' : x ∈ buf.lines ++ [⟨buf.event_counter + 1, t, d, 0⟩] :=
      (trimBuf_suffix _).subset hx
    show x.id ≤ (broadcastBuf buf t d 0).event_counter
    unfold broadcastBuf
    simp only
    rcases List.mem_append.mp hx' with hx' | hx'
    · have := lle x hx'
      omega
    · have heq : x = ⟨buf.event_counter + 1, t, d, 0⟩ := by simpa using hx'
      subst heq
      exact le_refl _
  · rw [hobs']
    exact hhead
  · rw [hobs']
    intro x hx
    have hx' : x ∈ buf.lines ++ [⟨buf.event_counter + 1, t, d, 0⟩] :=
      (trimBuf_suffix _).subset hx
    rcases List.mem_append.mp hx' with hx' | hx'
    · rcases cover x hx' with hc | hc | hc
      · exact Or.inl hc
      · refine Or.inr (Or.inl ?_)
        rw [List.map_append]
        exact List.mem_append.mpr (Or.inl hc)
      · exact Or.inr (Or.inr hc)
    · have heq : x = ⟨buf.event_counter + 1, t, d, 0⟩ := by simpa using hx'
      subst heq
      refine Or.inr (Or.inl ?_)
      rw [List.map_append]
      exact List.mem_append.mpr (Or.inr (by simp))

theorem subConnect_fst_jobs (s : SSEState) (jid : String) (now : Nat) :
    (subConnect s jid now).1.jobs = alSet s.jobs jid (subConnectBuf (getBuf s jid)) := by
  unfold subConnect
  cases hj : alGet s.jobs jid with
  | some b =>
      simp [hj, cancelPendingCleanup_jobs, getBuf, subConnectBuf]
  | none =>
      simp [hj, cancelPendingCleanup_jobs, getBuf, alSet_alSet, alGet_alSet_self,
        subConnectBuf]

theorem subConnect_snd (s : SSEState) (jid : String) (now : Nat) :
    (subConnect s jid now).2
      = .line ⟨(getBuf s jid).event_counter + 1, .connected,
          "Connected to job " ++ jid, now⟩ := by
  unfold subConnect
  cases hj : alGet s.jobs jid with
  | some b =>
      simp [hj, cancelPendingCleanup_jobs, getBuf]
  | none =>
      simp [hj, cancelPendingCleanup_jobs, getBuf, alGet_alSet_self]

/-- `subHistory` is silent when no retained line beats the threshold. -/
theorem subHistory_none (s : SSEState) (jid : String) (lastSeen : Option Nat)
    (now : Nat)
    (h : (getBuf s jid).lines.filter (fun l => lastSeen.getD 0 < l.id) = []) :
    subHistory s jid lastSeen now = (s, none) := by
  unfold subHistory
  by_cases hnil : (getBuf s jid).lines = []
  · simp [hnil]
  · simp [hnil, h]

/-- `subHistory` consumes an id and yields the missed lines otherwise. -/
theorem subHistory_some (s : SSEState) (jid : String) (lastSeen : Option Nat)
    (now : Nat)
    (h : (getBuf s jid).lines.filter (fun l => lastSeen.getD 0 < l.id) ≠ []) :
    subHistory s jid lastSeen now
      = ({ s with
           jobs := alSet s.jobs jid
             ({ getBuf s jid with
                event_counter := (getBuf s jid).event_counter + 1 }) },
         some (.historyEvent ((getBuf s jid).event_counter + 1)
            ((getBuf s jid).lines.filter (fun l => lastSeen.getD 0 < l.id)) now)) := by
  have hnil : (getBuf s jid).lines ≠ [] := by
    intro hl
    apply h
    rw [hl]
    rfl
  unfold subHistory
  simp [hnil, h]


theorem traceStep_history (jid : String) (lastSeen : Option Nat) (m : SSEState)
    (obs : List Emitted) :
    traceStep jid lastSeen { mgr := m, phase := 1, observed := obs }
        SubAction.history
      = { mgr := (subHistory m jid lastSeen 0).1, phase := 2,
          observed := obs ++ (subHistory m jid lastSeen 0).2.toList } := by
  unfold traceStep
  simp

theorem c2_prologue (jid : String) (lastSeen : Option Nat) (s0 : SSEState)
    (hsubs : (getBuf s0 jid).subscribers = [])
    (hle : ∀ l ∈ (getBuf s0 jid).lines, l.id ≤ (getBuf s0 jid).event_counter) :
    C2Inv jid [] ((getBuf s0 jid).event_counter + 1)
      (runTrace jid lastSeen s0 [SubAction.connect, SubAction.history]) := by
  have h1 : traceStep jid lastSeen { mgr := s0, phase := 0, observed := [] }
      SubAction.connect
      = { mgr := (subConnect s0 jid 0).1, phase := 1,
          observed := [(subConnect s0 jid 0).2] } := by
    unfold traceStep
    simp
  have hbuf1 : alGet (subConnect s0 jid 0).1.jobs jid
      = some (subConnectBuf (getBuf s0 jid)) := by
    rw [subConnect_fst_jobs]
    exact alGet_alSet_self _ _ _
  have hgb1 : getBuf (subConnect s0 jid 0).1 jid = subConnectBuf (getBuf s0 jid) := by
    rw [getBuf, hbuf1]
    rfl
  have hsnd := subConnect_snd s0 jid 0
  have hfil : (getBuf (subConnect s0 jid 0).1 jid).lines.filter
        (fun l => lastSeen.getD 0 < l.id)
      = (getBuf s0 jid).lines.filter (fun l => lastSeen.getD 0 < l.id) := by
    rw [hgb1]
    rfl
  have hctr : (getBuf (subConnect s0 jid 0).1 jid).event_counter
      = (getBuf s0 jid).event_counter + 1 := by
    rw [hgb1]
    rfl
  have hlines : (getBuf (subConnect s0 jid 0).1 jid).lines = (getBuf s0 jid).lines := by
    rw [hgb1]
    rfl
  show C2Inv jid [] ((getBuf s0 jid).event_counter + 1)
    (traceStep jid lastSeen (traceStep jid lastSeen
      { mgr := s0, phase := 0, observed := [] } SubAction.connect) SubAction.history)
  rw [h1, traceStep_history]
  by_cases hm : (getBuf s0 jid).lines.filter (fun l => lastSeen.getD 0 < l.id) = []
  · rw [subHistory_none _ _ _ _ (hfil.trans hm)]
    refine ⟨rfl, subConnectBuf (getBuf s0 jid), hbuf1, ?_, by simp, ?_, ?_, ?_, ?_,
      ?_, ?_, ?_⟩
    · simp [subConnectBuf, hsubs]
    · intro l hl
      simp at hl
    · intro o ho l hl
      simp at hl
    · simp [obsIds, hsnd, Emitted.eid]
    · intro o ho
      have heq : o = (getBuf s0 jid).event_counter + 1 := by
        simpa [obsIds, hsnd, Emitted.eid] using ho
      subst heq
      simp [subConnectBuf]
    · intro l hl
      have := hle l hl
      show l.id ≤ (subConnectBuf (getBuf s0 jid)).event_counter
      simp [subConnectBuf]
      omega
    · simp [obsIds, hsnd, Emitted.eid]
    · intro l hl
      have := hle l hl
      refine Or.inr (Or.inr ?_)
      omega
  · have hm' : (getBuf (subConnect s0 jid 0).1 jid).lines.filter
        (fun l => lastSeen.getD 0 < l.id) ≠ [] := by
      rw [hfil]
      exact hm
    rw [subHistory_some _ _ _ _ hm']
    simp only [Option.toList_some]
    refine ⟨rfl, _, alGet_alSet_self _ _ _, ?_, by simp, ?_, ?_, ?_, ?_, ?_, ?_, ?_⟩
    · simp [hgb1, subConnectBuf, hsubs]
    · intro l hl
      simp at hl
    · intro o ho l hl
      simp at hl
    · simp [obsIds, hsnd, Emitted.eid, List.chain'_pair, hctr]
    · intro o ho
      have ho' : o = (getBuf s0 jid).event_counter + 1 ∨
          o = (getBuf (subConnect s0 jid 0).1 jid).event_counter + 1 := by
        simpa [obsIds, hsnd, Emitted.eid] using ho
      show o ≤ (getBuf (subConnect s0 jid 0).1 jid).event_counter + 1
      rw [hctr] at ho' ⊢
      omega
    · intro l hl
      have hl' : l ∈ (getBuf s0 jid).lines := by
        rw [hlines] at hl
        exact hl
      have := hle l hl'
      show l.id ≤ (getBuf (subConnect s0 jid 0).1 jid).event_counter + 1
      rw [hctr]
      omega
    · simp [obsIds, hsnd, Emitted.eid]
    · intro l hl
      have hl' : l ∈ (getBuf s0 jid).lines := by
        rw [hlines] at hl
        exact hl
      have := hle l hl'
      refine Or.inr (Or.inr ?_)
      omega

/-- Running any schedule of dequeues and broadcasts preserves the invariant
as long as the broadcasts fit in the subscriber queue. -/
theorem c2_run (jid : String) (lastSeen : Option Nat) :
    ∀ (acts : List SubAction) (ts : TraceState) (q : List StreamLine) (conn : Nat),
      C2Inv jid q conn ts →
      (∀ a ∈ acts, a = SubAction.deq ∨ ∃ t d, a = SubAction.bcast t d) →
      q.length + bcastCount acts ≤ SUBSCRIBER_QUEUE_MAXSIZE →
      ∃ q', C2Inv jid q' conn (acts.foldl (traceStep jid lastSeen) ts) := by
  intro acts
  induction acts with
  | nil =>
      intro ts q conn h _ _
      exact ⟨q, h⟩
  | cons a rest ih =>
      intro ts q conn h hacts hbud
      rcases hacts a (List.mem_cons_self _ _) with ha | ⟨t, d, ha⟩
      · subst ha
        obtain ⟨q', hq', hlen⟩ := c2_step_deq jid lastSeen ts q conn h
        have hcnt : bcastCount (SubAction.deq :: rest) = bcastCount rest := by
          simp [bcastCount, List.countP_cons]
        have hbud' : q'.length + bcastCount rest ≤ SUBSCRIBER_QUEUE_MAXSIZE := by
          omega
        exact ih _ q' conn hq' (fun a ha => hacts a (List.mem_cons_of_mem _ ha)) hbud'
      · subst ha
        have hcnt : bcastCount (SubAction.bcast t d :: rest) = bcastCount rest + 1 := by
          simp [bcastCount, List.countP_cons]
        have hlt : q.length < SUBSCRIBER_QUEUE_MAXSIZE := by omega
        obtain ⟨q', hq', hlen⟩ := c2_step_bcast jid lastSeen ts q conn t d h hlt
        have hbud' : q'.length + bcastCount rest ≤ SUBSCRIBER_QUEUE_MAXSIZE := by
          omega
        exact ih _ q' conn hq' (fun a ha => hacts a (List.mem_cons_of_mem _ ha)) hbud'

/-- The invariant yields the claimed stream properties: strictly increasing
observed ids without duplicates, and gap-freeness relative to the retained
window. -/
theorem c2_final (jid : String) (q : List StreamLine) (conn : Nat)
    (ts : TraceState) (h : C2Inv jid q conn ts) :
    List.Chain' (· < ·) (obsIds ts) ∧ (obsIds ts).Nodup ∧
      ∀ buf, alGet ts.mgr.jobs jid = some buf →
        ∀ e ∈ buf.lines, (∃ i ∈ obsIds ts, i < e.id) →
          (∃ j ∈ obsIds ts, e.id < j) → e.id ∈ obsIds ts := by
  obtain ⟨hphase, buf, hbuf, hsubs, qchain, qle, oltq, ochain, ole, lle, hhead, cover⟩ := h
  refine ⟨ochain, ?_, ?_⟩
  · exact (List.chain'_iff_pairwise.mp ochain).imp (fun hlt => Nat.ne_of_lt hlt)
  · intro buf' hbuf' e he hi hj
    have hb : buf' = buf := by
      rw [hbuf] at hbuf'
      exact (Option.some.inj hbuf').symm
    subst hb
    rcases cover e he with hc | hc | hc
    · exact hc
    · exfalso
      obtain ⟨j, hjmem, hjlt⟩ := hj
      rcases List.mem_map.mp hc with ⟨z, hz, hze⟩
      have := oltq j hjmem z hz
      omega
    · exfalso
      obtain ⟨i, himem, hilt⟩ := hi
      cases hobs : obsIds ts with
      | nil =>
          rw [hobs] at hhead
          exact absurd hhead (by simp)
      | cons a tl =>
          rw [hobs] at hhead
          have ha : a = conn := by simpa using hhead
          subst ha
          rw [hobs] at himem ochain
          have hpw := List.chain'_iff_pairwise.mp ochain
          rcases List.mem_cons.mp himem with rfl | him
          · omega
          · have := List.rel_of_pairwise_cons hpw him
            omega

/-- C2 (amended): for a single subscriber of one job, PROVIDED the connected
and history yields are not interleaved with a broadcast (the schedule runs
`connect` then `history` back to back) and no more events are broadcast
during the subscription than the subscriber queue's capacity (100, so that
drop-on-full never discards a delivery), the sequence ids of the events the
subscriber observes are strictly increasing with no duplicates, and are
gap-free relative to the buffer's retained window: every retained event
whose id lies between two observed ids is itself observed. -/
theorem subscriber_stream_ids_amended (s0 : SSEState) (jid : String)
    (lastSeen : Option Nat) (rest : List SubAction)
    (hsubs : (getBuf s0 jid).subscribers = [])
    (hle : ∀ l ∈ (getBuf s0 jid).lines, l.id ≤ (getBuf s0 jid).event_counter)
    (hacts : ∀ a ∈ rest, a = SubAction.deq ∨ ∃ t d, a = SubAction.bcast t d)
    (hbudget : bcastCount rest ≤ SUBSCRIBER_QUEUE_MAXSIZE) :
    List.Chain' (· < ·) (obsIds (runTrace jid lastSeen s0
        ([SubAction.connect, SubAction.history] ++ rest))) ∧
      (obsIds (runTrace jid lastSeen s0
        ([SubAction.connect, SubAction.history] ++ rest))).Nodup ∧
      ∀ buf, alGet (runTrace jid lastSeen s0
          ([SubAction.connect, SubAction.history] ++ rest)).mgr.jobs jid = some buf →
        ∀ e ∈ buf.lines,
          (∃ i ∈ obsIds (runTrace jid lastSeen s0
            ([SubAction.connect, SubAction.history] ++ rest)), i < e.id) →
          (∃ j ∈ obsIds (runTrace jid lastSeen s0
            ([SubAction.connect, SubAction.history] ++ rest)), e.id < j) →
          e.id ∈ obsIds (runTrace jid lastSeen s0
            ([SubAction.connect, SubAction.history] ++ rest)) := by
  have hsplit : runTrace jid lastSeen s0
      ([SubAction.connect, SubAction.history] ++ rest)
      = rest.foldl (traceStep jid lastSeen)
          (runTrace jid lastSeen s0 [SubAction.connect, SubAction.history]) := by
    unfold runTrace
    rw [List.foldl_append]
  have hpro := c2_prologue jid lastSeen s0 hsubs hle
  obtain ⟨q', hinv⟩ := c2_run jid lastSeen rest _ [] _ hpro hacts
    (by simpa using hbudget)
  rw [hsplit]
  exact c2_final jid q' _ _ hinv

/-- Witness for C2's amended theorem at a concrete input: a reconnecting
subscriber over a one-event buffer, one live broadcast, two dequeues. -/
theorem subscriber_stream_ids_amended_witness :
    List.Chain' (· < ·) (obsIds (runTrace "job-1" (some 1) demoBuffered
        ([SubAction.connect, SubAction.history]
          ++ [SubAction.bcast .stdout "x", SubAction.deq, SubAction.deq]))) ∧
      (obsIds (runTrace "job-1" (some 1) demoBuffered
        ([SubAction.connect, SubAction.history]
          ++ [SubAction.bcast .stdout "x", SubAction.deq, SubAction.deq]))).Nodup ∧
      ∀ buf, alGet (runTrace "job-1" (some 1) demoBuffered
          ([SubAction.connect, SubAction.history]
            ++ [SubAction.bcast .stdout "x", SubAction.deq, SubAction.deq])).mgr.jobs
          "job-1" = some buf →
        ∀ e ∈ buf.lines,
          (∃ i ∈ obsIds (runTrace "job-1" (some 1) demoBuffered
            ([SubAction.connect, SubAction.history]
              ++ [SubAction.bcast .stdout "x", SubAction.deq, SubAction.deq])), i < e.id) →
          (∃ j ∈ obsIds (runTrace "job-1" (some 1) demoBuffered
            ([SubAction.connect, SubAction.history]
              ++ [SubAction.bcast .stdout "x", SubAction.deq, SubAction.deq])), e.id < j) →
          e.id ∈ obsIds (runTrace "job-1" (some 1) demoBuffered
            ([SubAction.connect, SubAction.history]
              ++ [SubAction.bcast .stdout "x", SubAction.deq, SubAction.deq])) :=
  subscriber_stream_ids_amended demoBuffered "job-1" (some 1)
    [SubAction.bcast .stdout "x", SubAction.deq, SubAction.deq]
    (by decide) (by decide)
    (by
      intro a ha
      simp only [List.mem_cons, List.not_mem_nil, or_false] at ha
      rcases ha with rfl | rfl | rfl
      · exact Or.inr ⟨.stdout, "x", rfl⟩
      · exact Or.inl rfl
      · exact Or.inl rfl)
    (by decide)
